import Mathlib

/-!
Shallow embedding of the FOMC link-scraper and text-extractor pipeline
(`01_fomc_link_scraper.py`, `02_fomc_text_extractor.py`): text
normalization, date parsing from locators, the extraction strategy chain,
the harvester's filter/dedup/sort pipeline, and the orchestrator's
idempotent run loop over a modelled filesystem.  Strings are modelled as
`List Char`; machine-level details (HTTP, HTML parsing) appear as an
abstract `Page` view of an already-parsed document.
-/

set_option autoImplicit false

/-- ASCII whitespace as recognised by Python's regex class backslash-s and
by `str.split` / `str.strip`. -/
def isWs (c : Char) : Bool :=
  c == ' ' || c == '\t' || c == '\n' || c == '\r' || c == '\x0b' || c == '\x0c'

/-- Helper for whitespace-run collapsing: the flag records whether the
previous character was whitespace, so each run emits a single space. -/
def collapseAux : Bool → List Char → List Char
  | _, [] => []
  | prevWs, c :: rest =>
    if isWs c then
      if prevWs then collapseAux true rest
      else ' ' :: collapseAux true rest
    else c :: collapseAux false rest

/-- Model of Python `re.sub` of one-or-more whitespace with a single space. -/
def collapseRuns (s : List Char) : List Char := collapseAux false s

/-- Remove trailing whitespace characters. -/
def dropTrailingWs : List Char → List Char
  | [] => []
  | c :: rest =>
    match dropTrailingWs rest with
    | [] => if isWs c then [] else [c]
    | x :: xs => c :: x :: xs

/-- Python `str.strip`: remove leading and trailing whitespace. -/
def stripWs (s : List Char) : List Char := dropTrailingWs (s.dropWhile isWs)

/-- `FOMCTextExtractor.clean_text`: collapse whitespace runs to single
spaces, then strip leading/trailing whitespace. -/
def clean_text (s : List Char) : List Char := stripWs (collapseRuns s)

/-- No two consecutive whitespace characters anywhere in the string. -/
def noTwoWs : List Char → Bool
  | a :: b :: rest => !(isWs a && isWs b) && noTwoWs (b :: rest)
  | _ => true

/-- The first character, if any, is not whitespace. -/
def headNotWs : List Char → Bool
  | [] => true
  | c :: _ => !isWs c

/-- The last character, if any, is not whitespace. -/
def lastNotWs : List Char → Bool
  | [] => true
  | [c] => !isWs c
  | _ :: c :: rest => lastNotWs (c :: rest)

/-- The spec's invariant on extracted text: no run of whitespace longer
than one space and no leading or trailing whitespace. -/
def wsNormalized (s : List Char) : Bool := noTwoWs s && headNotWs s && lastNotWs s

/-- Helper for Python `str.split` with no arguments: accumulate the current
word (reversed) and cut at whitespace, dropping empty words. -/
def splitWsAux : List Char → List Char → List (List Char)
  | [], acc => if acc.isEmpty then [] else [acc.reverse]
  | c :: rest, acc =>
    if isWs c then
      if acc.isEmpty then splitWsAux rest []
      else acc.reverse :: splitWsAux rest []
    else splitWsAux rest (c :: acc)

/-- Python `str.split()` (whitespace splitting, empty words dropped). -/
def pySplit (s : List Char) : List (List Char) := splitWsAux s []

/-- Join a list of words with single spaces. -/
def joinSpace : List (List Char) → List Char
  | [] => []
  | [w] => w
  | w :: x :: rest => w ++ ' ' :: joinSpace (x :: rest)

/-- Python `" ".join(text.split())` as used by the density heuristic. -/
def wsJoin (s : List Char) : List Char := joinSpace (pySplit s)

/-- Python's substring test `needle in haystack`. -/
def containsSub : List Char → List Char → Bool
  | [], nee => nee.isEmpty
  | h :: rest, nee => nee.isPrefixOf (h :: rest) || containsSub rest nee

/-- Python `str.lower` over the ASCII alphabet used by the keyword filters. -/
def toLowerL (s : List Char) : List Char := s.map Char.toLower

/-- Fuel-driven decimal digit accumulation (most significant digit first). -/
def natToCharsAux : Nat → Nat → List Char → List Char
  | 0, _, acc => acc
  | fuel + 1, n, acc =>
    if n < 10 then Char.ofNat (48 + n) :: acc
    else natToCharsAux fuel (n / 10) (Char.ofNat (48 + n % 10) :: acc)

/-- Decimal rendering of a natural number, as a Python f-string renders an int. -/
def natToChars (n : Nat) : List Char := natToCharsAux (n + 1) n []

/-- The fixed-width window of `n` characters starting at offset `i`. -/
def windowAt (n : Nat) (s : List Char) (i : Nat) : List Char := (s.drop i).take n

/-- Leftmost-match scan of `re.search` for a fixed-width pattern: try the
window at each successive offset and return the first one accepted. -/
def searchWindow (n : Nat) (p : List Char → Bool) : List Char → Option (List Char)
  | [] => none
  | c :: rest =>
    if p ((c :: rest).take n) then some ((c :: rest).take n)
    else searchWindow n p rest

/-- The pattern of `extract_date_from_url`: any 8 consecutive digits. -/
def isDate8 (w : List Char) : Bool := w.length == 8 && w.all Char.isDigit

/-- The pattern of `_extract_full_date`: 8 digits beginning with "20". -/
def is20Date8 (w : List Char) : Bool :=
  match w with
  | '2' :: '0' :: ds => ds.length == 6 && ds.all Char.isDigit
  | _ => false

/-- The pattern of `_extract_year_from_url`: 4 digits beginning with "20". -/
def is20Year4 (w : List Char) : Bool :=
  match w with
  | '2' :: '0' :: ds => ds.length == 2 && ds.all Char.isDigit
  | _ => false

/-- Numeric value of a digit string. -/
def digitsToNat (w : List Char) : Nat := w.foldl (fun a c => 10 * a + (c.toNat - 48)) 0

/-- Reformat an 8-digit date run as YYYY-MM-DD. -/
def formatDate (w : List Char) : List Char :=
  w.take 4 ++ '-' :: ((w.drop 4).take 2) ++ '-' :: (w.drop 6)

/-- `FOMCLinkScraper._extract_full_date`: leftmost occurrence of the
8-digit pattern beginning with "20", reformatted, else "Unknown". -/
def extract_full_date (url : List Char) : List Char :=
  match searchWindow 8 is20Date8 url with
  | some w => formatDate w
  | none => "Unknown".data

/-- `FOMCTextExtractor.extract_date_from_url`: leftmost run of any 8
digits, reformatted, else the year-carrying sentinel. -/
def extract_date_from_url (url : List Char) (year : Nat) : List Char :=
  match searchWindow 8 isDate8 url with
  | some w => formatDate w
  | none => natToChars year ++ "_unknown_date".data

/-- `FOMCLinkScraper._extract_year_from_url`: leftmost 4-digit run
beginning with "20", as a number. -/
def extract_year_from_url (url : List Char) : Option Nat :=
  (searchWindow 4 is20Year4 url).map digitsToNat

/-- Insertion step of a stable insertion sort with Boolean order `le`. -/
def insertLe {α : Type} (le : α → α → Bool) (c : α) : List α → List α
  | [] => [c]
  | b :: t => if le c b then c :: b :: t else b :: insertLe le c t

/-- Stable insertion sort with Boolean order `le` (models Python's stable
`list.sort` and pandas `sort_values` up to tie order). -/
def sortLe {α : Type} (le : α → α → Bool) : List α → List α
  | [] => []
  | c :: rest => insertLe le c (sortLe le rest)

/-- Post-parse view of a fetched page after the pre-cleaning step
(scripts, styles, nav, footer, header, form controls removed): lookup of
the first div with a given id or class (its `get_text`), the `get_text`
of every td/div element in document order, and the `get_text` of the
whole remaining tree. -/
structure Page where
  findDivById : List Char → Option (List Char)
  findDivByClass : List Char → Option (List Char)
  blocks : List (List Char)
  fullText : List Char

def golden_ids : List (List Char) := ["article".data, "leftText".data, "content".data]

/-- Probe the golden ids in order, returning the first hit. -/
def findGolden (page : Page) : List (List Char) → Option (List Char)
  | [] => none
  | gid :: rest =>
    match page.findDivById gid with
    | some d => some d
    | none => findGolden page rest

/-- Strategy A probe order: ids article, leftText, content, then the
Bootstrap class col-md-8. -/
def findStructural (page : Page) : Option (List Char) :=
  match findGolden page golden_ids with
  | some d => some d
  | none => page.findDivByClass "col-md-8".data

/-- Strategy B candidate list: whitespace-collapsed text of every td/div,
keeping only those of length at least 200. -/
def candidatesOf (page : Page) : List (List Char) :=
  (page.blocks.map wsJoin).filter (fun c => !decide (c.length < 200))

/-- Descending-by-length comparison for `candidates.sort(key=len, reverse=True)`. -/
def lenDesc (a b : List Char) : Bool := decide (b.length ≤ a.length)

/-- `FOMCTextExtractor.extract_text_from_url` after a successful fetch:
Strategy A (structural), else Strategy B (density), else Strategy C (raw). -/
def extractFromPage (page : Page) : List Char :=
  match findStructural page with
  | some d => clean_text d
  | none =>
    match sortLe lenDesc (candidatesOf page) with
    | c :: _ => clean_text c
    | [] => clean_text page.fullText

/-- `FOMCTextExtractor.extract_text_from_url`; `none` models a non-success
HTTP status or a raised exception, both of which yield the empty string. -/
def extract_text_from_url (fetched : Option Page) : List Char :=
  match fetched with
  | none => []
  | some page => extractFromPage page

/-- One hyperlink element of an index page: optional href attribute and
visible text. -/
structure Anchor where
  href : Option (List Char)
  text : List Char

/-- One manifest record (Date, Year, Date_Description, URL). -/
structure LinkRecord where
  date : List Char
  year : Nat
  label : List Char
  url : List Char
deriving DecidableEq

def exclusion_keywords : List (List Char) :=
  ["minutes".data, "press conference".data, "call".data, "video".data, "pdf".data,
   "financial".data, "longer-run".data, "implementation".data, "correction".data,
   "projection".data, "balance sheet".data]

def valid_paths : List (List Char) :=
  ["/newsevents/press/monetary".data, "/boarddocs/press/general".data,
   "/boarddocs/press/monetary".data, "/newsevents/pressreleases/monetary".data]

def base_url : List Char := "https://www.federalreserve.gov".data

/-- The inclusion test of the filter logic. -/
def statementFlag (href_lower text_lower : List Char) : Bool :=
  containsSub text_lower "statement".data ||
    (containsSub href_lower "monetary".data && containsSub href_lower "pressreleases".data &&
      containsSub href_lower "a.htm".data)

/-- The exclusion-keyword test of the filter logic. -/
def excludedFlag (text_lower : List Char) : Bool :=
  exclusion_keywords.any (fun k => containsSub text_lower k)

/-- The path allow-list test of the filter logic. -/
def pathFlag (href_lower : List Char) : Bool :=
  valid_paths.any (fun p => containsSub href_lower p)

/-- Python `url_year and url_year != target_year`. -/
def yearMismatch : Option Nat → Nat → Bool
  | some uy, ty => uy != ty
  | none, _ => false

/-- Resolve a relative path against the site's base origin. -/
def fullUrlOf (href : List Char) : List Char :=
  match href with
  | '/' :: _ => base_url ++ href
  | _ => href

/-- One anchor through the filter chain of `get_links_for_year`. -/
def processAnchor (target_year : Nat) (a : Anchor) : Option LinkRecord :=
  match a.href with
  | none => none
  | some href =>
    if href.isEmpty then none
    else
      let text := stripWs a.text
      let href_lower := toLowerL href
      let text_lower := toLowerL text
      if !statementFlag href_lower text_lower then none
      else if excludedFlag text_lower then none
      else
        let url_year := extract_year_from_url href
        if yearMismatch url_year target_year then none
        else if 2015 ≤ target_year && url_year.isNone then none
        else if !pathFlag href_lower then none
        else
          let full_url := fullUrlOf href
          some { date := extract_full_date full_url, year := target_year,
                 label := text, url := full_url }

/-- Membership in the seen-set of urls. -/
def seenHas (seen : List (List Char)) (u : List Char) : Bool := seen.any (fun v => v == u)

/-- Keep-first deduplication by URL with an explicit seen-set. -/
def dedupAux (seen : List (List Char)) : List LinkRecord → List LinkRecord
  | [] => []
  | r :: rest =>
    if seenHas seen r.url then dedupAux seen rest
    else r :: dedupAux (r.url :: seen) rest

/-- Local deduplication step of `get_links_for_year`, and the model of the
pandas keep-first `drop_duplicates(subset=[URL])`. -/
def dedupByUrl (l : List LinkRecord) : List LinkRecord := dedupAux [] l

/-- `FOMCLinkScraper.get_links_for_year`: filter the page's anchors and
deduplicate locally; a failed soup lookup yields no records. -/
def get_links_for_year (target_year : Nat) (soup : Option (List Anchor)) :
    List LinkRecord :=
  match soup with
  | none => []
  | some anchors => dedupByUrl (anchors.filterMap (processAnchor target_year))

/-- Lexicographic order on code points, Python string comparison. -/
def lexLe : List Char → List Char → Bool
  | [], _ => true
  | _ :: _, [] => false
  | a :: as, b :: bs =>
    if a.toNat < b.toNat then true
    else if b.toNat < a.toNat then false
    else lexLe as bs

/-- Date order on manifest records. -/
def dateLe (a b : LinkRecord) : Bool := lexLe a.date b.date

/-- `FOMCLinkScraper.run`: concatenate the per-year results, drop duplicate
URLs globally, and sort ascending by the Date column. -/
def runScraper (pages : Nat → Option (List Anchor)) (start_year end_year : Nat) :
    List LinkRecord :=
  let all := (List.range' start_year (end_year + 1 - start_year)).flatMap
      (fun y => get_links_for_year y (pages y))
  sortLe dateLe (dedupByUrl all)

def calendarsUrl (year : Nat) : List Char :=
  "https://www.federalreserve.gov/monetarypolicy/fomccalendars".data ++
    natToChars year ++ ".htm".data

def historicalUrl (year : Nat) : List Char :=
  "https://www.federalreserve.gov/monetarypolicy/fomchistorical".data ++
    natToChars year ++ ".htm".data

def rollingUrl : List Char :=
  "https://www.federalreserve.gov/monetarypolicy/fomccalendars.htm".data

/-- The candidate index locations of `_get_soup_with_fallback`, in order. -/
def urls_to_try (year : Nat) : List (List Char) :=
  if 2019 ≤ year then [calendarsUrl year, historicalUrl year] ++ [rollingUrl]
  else [calendarsUrl year, historicalUrl year]

/-- Modelled filesystem: association list from paths to file contents. -/
abbrev Fs := List (List Char × List Char)

def fsLookup : Fs → List Char → Option (List Char)
  | [], _ => none
  | (q, c) :: rest, p => if q = p then some c else fsLookup rest p

def fsWrite : Fs → List Char → List Char → Fs
  | [], p, c => [(p, c)]
  | (q, c0) :: rest, p, c => if q = p then (q, c) :: rest else (q, c0) :: fsWrite rest p c

/-- One manifest row as read back by the orchestrator (Year and URL columns). -/
structure ManRow where
  year : Nat
  url : List Char

def statements_dir : List Char := "data/raw_data/statements".data

/-- Artifact filename derivation of `FOMCTextExtractor.run`: the date
string, or the year-and-index composite when the date is unknown. -/
def derivedFilename (year idx : Nat) (url : List Char) : List Char :=
  let date_str := extract_date_from_url url year
  if containsSub date_str "unknown".data then
    natToChars year ++ "_".data ++ natToChars idx ++ ".txt".data
  else date_str ++ ".txt".data

def derivedPath (year idx : Nat) (url : List Char) : List Char :=
  statements_dir ++ "/".data ++ derivedFilename year idx url

/-- Orchestrator state: the artifacts directory, the number of network
fetches performed, and the success counter. -/
structure OrchState where
  fs : Fs
  fetches : Nat
  success : Nat
deriving DecidableEq

/-- One iteration of the orchestrator loop: skip if the artifact exists,
otherwise fetch, extract, and write the artifact (even when empty). -/
def orchStep (fetch : List Char → Option Page) (st : OrchState) (idx : Nat)
    (row : ManRow) : OrchState :=
  let fp := derivedPath row.year idx row.url
  if (fsLookup st.fs fp).isSome then
    { st with success := st.success + 1 }
  else
    let text := extract_text_from_url (fetch row.url)
    { fs := fsWrite st.fs fp text, fetches := st.fetches + 1, success := st.success + 1 }

/-- The orchestrator loop from a given starting row index. -/
def orchRunFrom (fetch : List Char → Option Page) (idx : Nat) (rows : List ManRow)
    (st : OrchState) : OrchState :=
  match rows with
  | [] => st
  | r :: rest => orchRunFrom fetch (idx + 1) rest (orchStep fetch st idx r)

/-- `FOMCTextExtractor.run` over an already-loaded manifest. -/
def orchRun (fetch : List Char → Option Page) (rows : List ManRow) (fs0 : Fs) :
    OrchState :=
  orchRunFrom fetch 0 rows ⟨fs0, 0, 0⟩

/-- Externally visible filesystem events of a file write. -/
inductive FsOp where
  | create (p : List Char)
  | writeAll (p : List Char) (c : List Char)

def applyOp (fs : Fs) : FsOp → Fs
  | .create p => fsWrite fs p []
  | .writeAll p c => fsWrite fs p c

def applyOps (fs : Fs) (ops : List FsOp) : Fs := ops.foldl applyOp fs

/-- Python `with open(filepath, "w") as f: f.write(text)` decomposed into
its two externally visible filesystem events: opening with mode w creates
or truncates the file at the final path, then the write fills it. -/
def writeOps (p text : List Char) : List FsOp := [.create p, .writeAll p text]

/-! ### Whitespace-normalization lemmas -/

theorem headNotWs_collapseAux_true (s : List Char) :
    headNotWs (collapseAux true s) = true := by
  induction s with
  | nil => rfl
  | cons c rest ih =>
    cases hc : isWs c
    · simp [collapseAux, hc, headNotWs]
    · simpa [collapseAux, hc] using ih

theorem noTwoWs_cons (c : Char) (l : List Char) (h : noTwoWs (c :: l) = true) :
    noTwoWs l = true := by
  cases l with
  | nil => rfl
  | cons b rest =>
    simp only [noTwoWs, Bool.and_eq_true] at h
    exact h.2

theorem noTwoWs_collapseAux (b : Bool) (s : List Char) :
    noTwoWs (collapseAux b s) = true := by
  induction s generalizing b with
  | nil => rfl
  | cons c rest ih =>
    cases hc : isWs c
    · simp only [collapseAux, hc, Bool.false_eq_true, if_false]
      have ihf := ih false
      cases hq : collapseAux false rest with
      | nil => simp [noTwoWs]
      | cons x xs =>
        rw [hq] at ihf
        simp only [noTwoWs, Bool.and_eq_true]
        exact ⟨by simp [hc], ihf⟩
    · simp only [collapseAux, hc, if_true]
      cases b with
      | true => exact ih true
      | false =>
        have iht := ih true
        have hh := headNotWs_collapseAux_true rest
        cases hq : collapseAux true rest with
        | nil => simp [noTwoWs]
        | cons x xs =>
          rw [hq] at iht hh
          simp only [headNotWs, Bool.not_eq_true'] at hh
          simp only [noTwoWs, Bool.and_eq_true]
          exact ⟨by simp [hh], iht⟩

theorem noTwoWs_dropWhile (p : Char → Bool) (l : List Char) (h : noTwoWs l = true) :
    noTwoWs (l.dropWhile p) = true := by
  induction l with
  | nil => simpa using h
  | cons c rest ih =>
    cases hc : p c
    · simpa [List.dropWhile_cons, hc] using h
    · simpa [List.dropWhile_cons, hc] using ih (noTwoWs_cons c rest h)

theorem headNotWs_dropWhile (l : List Char) :
    headNotWs (l.dropWhile isWs) = true := by
  induction l with
  | nil => rfl
  | cons c rest ih =>
    cases hc : isWs c
    · simp [List.dropWhile_cons, hc, headNotWs]
    · simpa [List.dropWhile_cons, hc] using ih

theorem dropTrailingWs_head (l : List Char) (x : Char) (xs : List Char)
    (h : dropTrailingWs l = x :: xs) : ∃ t, l = x :: t := by
  cases l with
  | nil => simp [dropTrailingWs] at h
  | cons c rest =>
    simp only [dropTrailingWs] at h
    cases hq : dropTrailingWs rest with
    | nil =>
      rw [hq] at h
      cases hc : isWs c <;> rw [hc] at h <;> simp at h
      exact ⟨rest, by rw [h.1]⟩
    | cons y ys =>
      rw [hq] at h
      injection h with h1 h2
      exact ⟨rest, by rw [h1]⟩

theorem noTwoWs_dropTrailingWs (l : List Char) (h : noTwoWs l = true) :
    noTwoWs (dropTrailingWs l) = true := by
  induction l with
  | nil => simpa using h
  | cons c rest ih =>
    have hrest := noTwoWs_cons c rest h
    simp only [dropTrailingWs]
    cases hq : dropTrailingWs rest with
    | nil => cases hc : isWs c <;> simp [noTwoWs]
    | cons x xs =>
      have ih' := ih hrest
      rw [hq] at ih'
      obtain ⟨t, ht⟩ := dropTrailingWs_head rest x xs hq
      subst ht
      simp only [noTwoWs, Bool.and_eq_true] at h ⊢
      exact ⟨h.1, ih'⟩

theorem lastNotWs_dropTrailingWs (l : List Char) :
    lastNotWs (dropTrailingWs l) = true := by
  induction l with
  | nil => rfl
  | cons c rest ih =>
    simp only [dropTrailingWs]
    cases hq : dropTrailingWs rest with
    | nil => cases hc : isWs c <;> simp [lastNotWs, hc]
    | cons x xs =>
      rw [hq] at ih
      simpa [lastNotWs] using ih

theorem headNotWs_dropTrailingWs (l : List Char) (h : headNotWs l = true) :
    headNotWs (dropTrailingWs l) = true := by
  cases hq : dropTrailingWs l with
  | nil => rfl
  | cons x xs =>
    obtain ⟨t, ht⟩ := dropTrailingWs_head l x xs hq
    subst ht
    simpa [headNotWs] using h

theorem wsNormalized_clean_text (s : List Char) :
    wsNormalized (clean_text s) = true := by
  have h1 : noTwoWs (collapseRuns s) = true := noTwoWs_collapseAux false s
  have h2 := noTwoWs_dropWhile isWs _ h1
  have h3 := noTwoWs_dropTrailingWs _ h2
  have h4 := headNotWs_dropTrailingWs _ (headNotWs_dropWhile (collapseRuns s))
  have h5 := lastNotWs_dropTrailingWs ((collapseRuns s).dropWhile isWs)
  simp only [clean_text, stripWs, wsNormalized, Bool.and_eq_true]
  exact ⟨⟨h3, h4⟩, h5⟩

/-- C1: for every locator, `extract_text_from_url` returns a string with
no run of whitespace longer than one space and no leading or trailing
whitespace, regardless of which strategy (structural, density, raw
fallback) produced it, including the empty-string failure results. -/
theorem c1_extract_always_normalized (fetched : Option Page) :
    wsNormalized (extract_text_from_url fetched) = true := by
  cases fetched with
  | none => rfl
  | some page =>
    simp only [extract_text_from_url, extractFromPage]
    cases h : findStructural page with
    | some d => exact wsNormalized_clean_text d
    | none =>
      cases hq : sortLe lenDesc (candidatesOf page) with
      | nil => exact wsNormalized_clean_text _
      | cons c cs => exact wsNormalized_clean_text c

/-! ### Leftmost-window search lemmas -/

theorem windowAt_succ (n : Nat) (c : Char) (rest : List Char) (i : Nat) :
    windowAt n (c :: rest) (i + 1) = windowAt n rest i := by
  simp [windowAt]

theorem searchWindow_some (n : Nat) (p : List Char → Bool) (s w : List Char)
    (h : searchWindow n p s = some w) :
    ∃ i, i < s.length ∧ windowAt n s i = w ∧ p w = true ∧
      ∀ j, j < i → p (windowAt n s j) = false := by
  induction s with
  | nil => simp [searchWindow] at h
  | cons c rest ih =>
    cases hp : p ((c :: rest).take n) with
    | true =>
      rw [searchWindow, if_pos hp] at h
      injection h with hw
      refine ⟨0, by simp, ?_, ?_, ?_⟩
      · simpa [windowAt] using hw
      · rw [← hw]; exact hp
      · intro j hj; omega
    | false =>
      rw [searchWindow, if_neg (by simp [hp])] at h
      obtain ⟨i, hi, hwin, hpw, hmin⟩ := ih h
      refine ⟨i + 1, by simpa using Nat.succ_lt_succ hi, by simpa [windowAt_succ] using hwin,
        hpw, ?_⟩
      intro j hj
      cases j with
      | zero => simpa [windowAt] using hp
      | succ j' =>
        rw [windowAt_succ]
        exact hmin j' (Nat.lt_of_succ_lt_succ hj)

theorem searchWindow_none (n : Nat) (p : List Char → Bool) (s : List Char)
    (h : searchWindow n p s = none) (hnil : p [] = false) :
    ∀ i, p (windowAt n s i) = false := by
  intro i
  induction s generalizing i with
  | nil => simpa [windowAt] using hnil
  | cons c rest ih =>
    have hsplit : p ((c :: rest).take n) = false ∧ searchWindow n p rest = none := by
      cases hp : p ((c :: rest).take n) with
      | true => rw [searchWindow, if_pos hp] at h; exact absurd h (by simp)
      | false => rw [searchWindow, if_neg (by simp [hp])] at h; exact ⟨rfl, h⟩
    cases i with
    | zero => simpa [windowAt] using hsplit.1
    | succ i' => rw [windowAt_succ]; exact ih hsplit.2 i'

/-- C5 (amended): both date normalizers are total, deterministic,
leftmost-match scanners, but their patterns and sentinels differ: the
manifest normalizer `extract_full_date` matches only 8-digit runs
beginning with "20" and its sentinel is the fixed string "Unknown" (not
carrying the year), while the filename normalizer `extract_date_from_url`
matches any 8-digit run and its sentinel carries the period year. -/
theorem c5_date_normalizers (url : List Char) (year : Nat) :
    (∀ w, searchWindow 8 is20Date8 url = some w →
      ∃ i, windowAt 8 url i = w ∧ is20Date8 w = true ∧
        (∀ j, j < i → is20Date8 (windowAt 8 url j) = false) ∧
        extract_full_date url = formatDate w) ∧
    (searchWindow 8 is20Date8 url = none →
      (∀ i, is20Date8 (windowAt 8 url i) = false) ∧
      extract_full_date url = "Unknown".data) ∧
    (∀ w, searchWindow 8 isDate8 url = some w →
      ∃ i, windowAt 8 url i = w ∧ isDate8 w = true ∧
        (∀ j, j < i → isDate8 (windowAt 8 url j) = false) ∧
        extract_date_from_url url year = formatDate w) ∧
    (searchWindow 8 isDate8 url = none →
      (∀ i, isDate8 (windowAt 8 url i) = false) ∧
      extract_date_from_url url year = natToChars year ++ "_unknown_date".data) := by
  refine ⟨?_, ?_, ?_, ?_⟩
  · intro w h
    obtain ⟨i, _, hwin, hpw, hmin⟩ := searchWindow_some 8 is20Date8 url w h
    exact ⟨i, hwin, hpw, hmin, by simp [extract_full_date, h]⟩
  · intro h
    exact ⟨searchWindow_none 8 is20Date8 url h rfl, by simp [extract_full_date, h]⟩
  · intro w h
    obtain ⟨i, _, hwin, hpw, hmin⟩ := searchWindow_some 8 isDate8 url w h
    exact ⟨i, hwin, hpw, hmin, by simp [extract_date_from_url, h]⟩
  · intro h
    exact ⟨searchWindow_none 8 isDate8 url h rfl, by simp [extract_date_from_url, h]⟩

/-- Witness for C5 at concrete locators: the dated locator yields the
leftmost 8-digit run reformatted, and a digit-free locator yields the
year-carrying sentinel of the filename normalizer. -/
theorem c5_date_normalizers_witness :
    (∃ i, windowAt 8 "monetary20081028a.htm".data i = "20081028".data ∧
      is20Date8 "20081028".data = true ∧
      (∀ j, j < i → is20Date8 (windowAt 8 "monetary20081028a.htm".data j) = false) ∧
      extract_full_date "monetary20081028a.htm".data = "2008-10-28".data) ∧
    ((∀ i, isDate8 (windowAt 8 "abc.htm".data i) = false) ∧
      extract_date_from_url "abc.htm".data 2003 = "2003_unknown_date".data) := by
  constructor
  · obtain ⟨i, h1, h2, h3, h4⟩ :=
      (c5_date_normalizers "monetary20081028a.htm".data 2003).1 "20081028".data (by decide)
    exact ⟨i, h1, h2, h3, by rw [h4]; decide⟩
  · obtain ⟨h1, h2⟩ := (c5_date_normalizers "abc.htm".data 2003).2.2.2 (by decide)
    exact ⟨h1, by rw [h2]; decide⟩

/-- Counterexample to C5 as stated: the claim says both normalizers
return a qualifying "20"-initial run or a year-carrying sentinel; but on
a locator whose only 8-digit run starts with "19", the filename
normalizer returns that run reformatted instead of the sentinel, and the
manifest normalizer's sentinel "Unknown" carries no year. -/
theorem c5_counterexample :
    extract_date_from_url "a19991231b".data 2005 = "1999-12-31".data ∧
    (∀ i, is20Date8 (windowAt 8 "a19991231b".data i) = false) ∧
    extract_date_from_url "a19991231b".data 2005 ≠ "2005_unknown_date".data ∧
    extract_full_date "a19991231b".data = "Unknown".data := by
  refine ⟨by decide, ?_, by decide, by decide⟩
  exact searchWindow_none 8 is20Date8 "a19991231b".data (by decide) rfl

/-- C4: when the page contains a known structural container (ids article,
leftText, content, probed in that order, then class col-md-8), extract
returns the normalized text of the first such container found; the density
heuristic and raw fallback are never consulted: the result is unchanged
under any replacement of the page's generic blocks and raw text, however
long those blocks may be. -/
theorem c4_structural_priority (page : Page) (d : List Char)
    (h : findStructural page = some d) :
    extractFromPage page = clean_text d ∧
    ∀ bl ft,
      extractFromPage
        { findDivById := page.findDivById, findDivByClass := page.findDivByClass,
          blocks := bl, fullText := ft } = clean_text d := by
  have hs : ∀ bl ft,
      findStructural
        { findDivById := page.findDivById, findDivByClass := page.findDivByClass,
          blocks := bl, fullText := ft } = findStructural page := by
    intro bl ft; rfl
  constructor
  · simp [extractFromPage, h]
  · intro bl ft
    simp [extractFromPage, hs, h]

/-- Concrete page for the C4 witness: a structural container with messy
whitespace, plus an oversized generic block the density heuristic would
otherwise pick. -/
def pageA : Page :=
  { findDivById := fun gid => if gid = "article".data then some "  Hello   world  ".data else none
    findDivByClass := fun _ => none
    blocks := [List.replicate 300 'x']
    fullText := List.replicate 300 'x' }

/-- Witness for C4: the structural container's normalized text is returned
for `pageA`, and stays returned when the page is given an even longer
generic block. -/
theorem c4_structural_priority_witness :
    extractFromPage pageA = "Hello world".data ∧
    extractFromPage
      { findDivById := pageA.findDivById, findDivByClass := pageA.findDivByClass,
        blocks := [List.replicate 400 'y'], fullText := List.replicate 400 'y' } =
      "Hello world".data := by
  obtain ⟨h1, h2⟩ := c4_structural_priority pageA "  Hello   world  ".data (by decide)
  constructor
  · rw [h1]; decide
  · rw [h2 [List.replicate 400 'y'] (List.replicate 400 'y')]; decide

/-! ### Insertion-sort lemmas -/

theorem insertLe_perm {α : Type} (le : α → α → Bool) (c : α) (l : List α) :
    List.Perm (insertLe le c l) (c :: l) := by
  induction l with
  | nil => simp [insertLe]
  | cons b t ih =>
    cases h : le c b
    · simp only [insertLe, h, Bool.false_eq_true, if_false]
      exact (ih.cons b).trans (List.Perm.swap c b t)
    · simp [insertLe, h]

theorem sortLe_perm {α : Type} (le : α → α → Bool) (l : List α) :
    List.Perm (sortLe le l) l := by
  induction l with
  | nil => simp [sortLe]
  | cons c rest ih =>
    exact (insertLe_perm le c (sortLe le rest)).trans (ih.cons c)

theorem insertLe_chain {α : Type} (le : α → α → Bool)
    (htot : ∀ a b, le a b = false → le b a = true) (c : α) (l : List α)
    (h : List.Chain' (fun a b => le a b = true) l) :
    List.Chain' (fun a b => le a b = true) (insertLe le c l) := by
  induction l with
  | nil => simp [insertLe]
  | cons b t ih =>
    cases hcb : le c b
    · simp only [insertLe, hcb, Bool.false_eq_true, if_false]
      have ht := h.tail
      have hit := ih ht
      cases t with
      | nil =>
        simp only [insertLe]
        exact List.chain'_pair.mpr (htot c b hcb)
      | cons x xs =>
        simp only [insertLe] at hit ⊢
        cases hcx : le c x
        · rw [hcx] at hit
          simp only [Bool.false_eq_true, if_false] at hit
          simp only [hcx, Bool.false_eq_true, if_false]
          exact (List.chain'_cons.mpr ⟨List.chain'_cons.mp h |>.1, hit⟩)
        · rw [hcx] at hit
          simp only [if_true] at hit
          simp only [hcx, if_true]
          exact List.chain'_cons.mpr ⟨htot c b hcb,
            List.chain'_cons.mpr ⟨hcx, ht⟩⟩
    · simp only [insertLe, hcb, if_true]
      exact List.chain'_cons.mpr ⟨hcb, h⟩

theorem sortLe_chain {α : Type} (le : α → α → Bool)
    (htot : ∀ a b, le a b = false → le b a = true) (l : List α) :
    List.Chain' (fun a b => le a b = true) (sortLe le l) := by
  induction l with
  | nil => simp [sortLe]
  | cons c rest ih => exact insertLe_chain le htot c (sortLe le rest) ih

theorem lenDesc_total (a b : List Char) (h : lenDesc a b = false) : lenDesc b a = true := by
  simp only [lenDesc, decide_eq_false_iff_not, Nat.not_le] at h
  simp only [lenDesc, decide_eq_true_eq]
  omega

theorem lenDesc_head_ge (c : List Char) (cs : List (List Char))
    (h : List.Chain' (fun a b => lenDesc a b = true) (c :: cs)) :
    ∀ b ∈ c :: cs, b.length ≤ c.length := by
  induction cs generalizing c with
  | nil =>
    intro b hb
    simp only [List.mem_singleton] at hb
    subst hb; exact Nat.le_refl _
  | cons x xs ih =>
    intro b hb
    rcases List.mem_cons.mp hb with hbc | hbx
    · subst hbc; exact Nat.le_refl _
    · have hcx : x.length ≤ c.length := by
        have := (List.chain'_cons.mp h).1
        simpa [lenDesc] using this
      have := ih x h.tail b hbx
      omega

theorem sortLe_lenDesc_head (l : List (List Char)) (c : List Char) (cs : List (List Char))
    (h : sortLe lenDesc l = c :: cs) :
    c ∈ l ∧ ∀ b ∈ l, b.length ≤ c.length := by
  have hp : List.Perm (c :: cs) l := h ▸ sortLe_perm lenDesc l
  have hch := sortLe_chain lenDesc lenDesc_total l
  rw [h] at hch
  constructor
  · exact hp.subset (List.mem_cons_self c cs)
  · intro b hb
    exact lenDesc_head_ge c cs hch b (hp.mem_iff.mpr hb)

/-- C3: when no structural match fires, a candidate block whose collapsed
text is shorter than 200 characters is never selected (if every block is
short the result falls through to the raw fallback), and whenever any
candidate of length at least 200 exists, the returned text is the
normalized form of a maximal-length candidate, with no other acceptance
criterion. -/
theorem c3_density_heuristic (page : Page) (hA : findStructural page = none) :
    ((∀ b ∈ page.blocks, (wsJoin b).length < 200) →
      extractFromPage page = clean_text page.fullText) ∧
    (∀ c0, c0 ∈ candidatesOf page →
      ∃ w, w ∈ candidatesOf page ∧ 200 ≤ w.length ∧
        (∀ b ∈ candidatesOf page, b.length ≤ w.length) ∧
        extractFromPage page = clean_text w) := by
  constructor
  · intro hshort
    have hempty : candidatesOf page = [] := by
      simp only [candidatesOf, List.filter_eq_nil_iff]
      intro a ha
      obtain ⟨b, hb, rfl⟩ := List.mem_map.mp ha
      simp [hshort b hb]
    simp [extractFromPage, hA, hempty, sortLe]
  · intro c0 hc0
    cases hs : sortLe lenDesc (candidatesOf page) with
    | nil =>
      exfalso
      have : candidatesOf page = [] := (hs ▸ sortLe_perm lenDesc (candidatesOf page)).symm.eq_nil
      rw [this] at hc0
      exact absurd hc0 (List.not_mem_nil c0)
    | cons w ws =>
      obtain ⟨hmem, hmax⟩ := sortLe_lenDesc_head _ w ws hs
      refine ⟨w, hmem, ?_, hmax, ?_⟩
      · have := List.of_mem_filter hmem
        simpa using this
      · simp [extractFromPage, hA, hs]

/-- Concrete page for the C3 witness: no structural container; one short
block and two qualifying blocks, the longest of which must win. -/
def pageB : Page :=
  { findDivById := fun _ => none
    findDivByClass := fun _ => none
    blocks := [List.replicate 150 'a', List.replicate 250 'b', List.replicate 220 'c']
    fullText := "tiny".data }

/-- Concrete page for the C3 witness's fallback branch: its only block is
shorter than 200 characters, so Strategy B yields nothing. -/
def pageC : Page :=
  { findDivById := fun _ => none
    findDivByClass := fun _ => none
    blocks := [List.replicate 150 'a']
    fullText := "raw fallback text".data }

set_option maxRecDepth 4000 in
/-- Witness for C3: on `pageB` a maximal qualifying candidate is selected,
and on `pageC` (single 150-character block) the raw fallback is used. -/
theorem c3_density_heuristic_witness :
    (∃ w, w ∈ candidatesOf pageB ∧ 200 ≤ w.length ∧
      (∀ b ∈ candidatesOf pageB, b.length ≤ w.length) ∧
      extractFromPage pageB = clean_text w) ∧
    extractFromPage pageC = clean_text pageC.fullText := by
  constructor
  · exact (c3_density_heuristic pageB rfl).2 (List.replicate 250 'b') (by decide)
  · exact (c3_density_heuristic pageC rfl).1 (by decide)

/-! ### Harvester invariants -/

theorem seenHas_iff (seen : List (List Char)) (u : List Char) :
    seenHas seen u = true ↔ u ∈ seen := by
  simp only [seenHas, List.any_eq_true, beq_iff_eq]
  constructor
  · rintro ⟨v, hv, rfl⟩; exact hv
  · intro h; exact ⟨u, h, rfl⟩

theorem dedupAux_nodup (l : List LinkRecord) : ∀ seen : List (List Char),
    ((dedupAux seen l).map (fun r => r.url)).Nodup ∧
    ∀ r ∈ dedupAux seen l, ¬ r.url ∈ seen := by
  induction l with
  | nil => intro seen; simp [dedupAux]
  | cons r rest ih =>
    intro seen
    cases hs : seenHas seen r.url
    · simp only [dedupAux, hs, Bool.false_eq_true, if_false]
      obtain ⟨ih1, ih2⟩ := ih (r.url :: seen)
      refine ⟨?_, ?_⟩
      · simp only [List.map_cons, List.nodup_cons]
        refine ⟨?_, ih1⟩
        intro hmem
        obtain ⟨r', hr', hru⟩ := List.mem_map.mp hmem
        exact (ih2 r' hr') (hru ▸ List.mem_cons_self _ _)
      · intro r' hr'
        rcases List.mem_cons.mp hr' with hrr | hrest
        · subst hrr
          intro hmem
          exact absurd ((seenHas_iff seen r'.url).mpr hmem) (by simp [hs])
        · intro hmem
          exact (ih2 r' hrest) (List.mem_cons_of_mem _ hmem)
    · simp only [dedupAux, hs, if_true]
      obtain ⟨ih1, ih2⟩ := ih seen
      exact ⟨ih1, fun r' hr' => ih2 r' hr'⟩

/-- C7: in every manifest produced by the harvester pipeline (per-year
dedup inside `get_links_for_year`, then the global keep-first drop and the
date sort in `run`), every locator appears in at most one row. -/
theorem c7_unique_locators (pages : Nat → Option (List Anchor)) (sy ey : Nat) :
    ((runScraper pages sy ey).map (fun r => r.url)).Nodup := by
  unfold runScraper
  have hd := (dedupAux_nodup ((List.range' sy (ey + 1 - sy)).flatMap
      (fun y => get_links_for_year y (pages y))) []).1
  have hperm := (sortLe_perm dateLe (dedupByUrl ((List.range' sy (ey + 1 - sy)).flatMap
      (fun y => get_links_for_year y (pages y))))).map (fun r => r.url)
  exact hperm.nodup_iff.mpr hd

theorem lexLe_total (a : List Char) : ∀ b, lexLe a b = false → lexLe b a = true := by
  induction a with
  | nil => intro b h; simp [lexLe] at h
  | cons x xs ih =>
    intro b h
    cases b with
    | nil => rfl
    | cons y ys =>
      simp only [lexLe] at h ⊢
      by_cases hxy : x.toNat < y.toNat
      · rw [if_pos hxy] at h; exact absurd h (by simp)
      · rw [if_neg hxy] at h
        by_cases hyx : y.toNat < x.toNat
        · rw [if_pos hyx]
        · rw [if_neg hyx] at h
          rw [if_neg (by omega), if_neg (by omega)]
          exact ih ys h

theorem dateLe_total (a b : LinkRecord) (h : dateLe a b = false) : dateLe b a = true :=
  lexLe_total a.date b.date h

/-- C8: every manifest produced by the harvester is in non-decreasing
order of the Date column under literal string (code point) comparison;
sentinel dates participate in the very same comparison, not in a separate
bucket. -/
theorem c8_sorted_by_date (pages : Nat → Option (List Anchor)) (sy ey : Nat) :
    List.Chain' (fun a b => dateLe a b = true) (runScraper pages sy ey) := by
  unfold runScraper
  exact sortLe_chain dateLe dateLe_total _

/-! ### Threshold behaviour of the harvester -/

theorem natToCharsAux_length : ∀ (fuel n : Nat) (acc : List Char), 1 ≤ fuel →
    acc.length < (natToCharsAux fuel n acc).length := by
  intro fuel
  induction fuel with
  | zero => intro n acc h; omega
  | succ f ih =>
    intro n acc _
    by_cases h : n < 10
    · simp [natToCharsAux, h]
    · simp only [natToCharsAux, if_neg h]
      cases f with
      | zero => simp [natToCharsAux]
      | succ f' =>
        have := ih (n / 10) (Char.ofNat (48 + n % 10) :: acc) (by omega)
        simp only [List.length_cons] at this
        omega

theorem one_le_natToChars_length (n : Nat) : 1 ≤ (natToChars n).length := by
  have := natToCharsAux_length (n + 1) n [] (by omega)
  simpa using this

theorem rollingUrl_ne_calendarsUrl (y : Nat) : rollingUrl ≠ calendarsUrl y := by
  intro he
  have hlen := congrArg List.length he
  rw [calendarsUrl] at hlen
  simp only [List.length_append] at hlen
  have h1 : rollingUrl.length = 63 := by decide
  have h2 : ("https://www.federalreserve.gov/monetarypolicy/fomccalendars".data).length = 59 := by
    decide
  have h3 : (".htm".data).length = 4 := by decide
  rw [h1, h2, h3] at hlen
  have h4 := one_le_natToChars_length y
  omega

theorem rollingUrl_ne_historicalUrl (y : Nat) : rollingUrl ≠ historicalUrl y := by
  intro he
  have hlen := congrArg List.length he
  rw [historicalUrl] at hlen
  simp only [List.length_append] at hlen
  have h1 : rollingUrl.length = 63 := by decide
  have h2 : ("https://www.federalreserve.gov/monetarypolicy/fomchistorical".data).length = 60 := by
    decide
  have h3 : (".htm".data).length = 4 := by decide
  rw [h1, h2, h3] at hlen
  have h4 := one_le_natToChars_length y
  omega

/-- C6 (amended): two distinct recent-era thresholds govern the two
behaviours. The current rolling-calendar location is among the fallback
retrieval candidates exactly for periods at or after 2019, while a link
lacking any parseable year (that passes every other filter) is discarded
exactly for periods at or after 2015. -/
theorem c6_two_thresholds (y : Nat) :
    (rollingUrl ∈ urls_to_try y ↔ 2019 ≤ y) ∧
    (∀ href text : List Char, href.isEmpty = false →
      statementFlag (toLowerL href) (toLowerL (stripWs text)) = true →
      excludedFlag (toLowerL (stripWs text)) = false →
      pathFlag (toLowerL href) = true →
      extract_year_from_url href = none →
      ((processAnchor y ⟨some href, text⟩).isSome = true ↔ y < 2015)) := by
  constructor
  · constructor
    · intro hmem
      by_cases hy : 2019 ≤ y
      · exact hy
      · exfalso
        simp only [urls_to_try, if_neg hy, List.mem_cons, List.mem_singleton,
          List.not_mem_nil, or_false] at hmem
        rcases hmem with h | h
        · exact rollingUrl_ne_calendarsUrl y h
        · exact rollingUrl_ne_historicalUrl y h
    · intro hy
      simp [urls_to_try, if_pos hy]
  · intro href text hne hstmt hexcl hpath hyear
    simp only [processAnchor, hne, Bool.false_eq_true, if_false, hstmt, hexcl, hyear,
      Bool.not_true, yearMismatch, Option.isNone_none, Bool.and_true]
    by_cases hc : 2015 ≤ y
    · rw [if_pos (by simpa using hc)]
      simp only [Option.isSome_none, Bool.false_eq_true, false_iff]
      omega
    · rw [if_neg (by simpa using hc)]
      rw [if_neg (by simp [hpath])]
      simp only [Option.isSome_some, true_iff]
      omega

/-- A concrete anchor for C6 whose href carries no parseable year yet
passes the statement, exclusion and path filters. -/
def yearlessHref : List Char := "/boarddocs/press/monetary/fomc.htm".data

/-- The visible text of the concrete C6 anchor. -/
def yearlessText : List Char := "FOMC Statement".data

/-- Witness for C6: at period 2020 the rolling-calendar location is a
fallback candidate, and at period 2014 the yearless anchor is kept. -/
theorem c6_two_thresholds_witness :
    rollingUrl ∈ urls_to_try 2020 ∧
    (processAnchor 2014 ⟨some yearlessHref, yearlessText⟩).isSome = true := by
  constructor
  · exact (c6_two_thresholds 2020).1.mpr (by omega)
  · exact ((c6_two_thresholds 2014).2 yearlessHref yearlessText (by decide) (by decide)
      (by decide) (by decide) (by decide)).mpr (by omega)

/-- Counterexample to C6 as stated: no single threshold T can govern both
behaviours, because at period 2016 the yearless anchor is discarded (so T
would have to be at most 2016) while the rolling-calendar location is not
among the candidates (so T would have to exceed 2016). -/
theorem c6_counterexample :
    ¬ ∃ T : Nat, ∀ y : Nat,
      ((rollingUrl ∈ urls_to_try y) ↔ T ≤ y) ∧
      ((processAnchor y ⟨some yearlessHref, yearlessText⟩ = none) ↔ T ≤ y) := by
  rintro ⟨T, hT⟩
  have hdis : processAnchor 2016 ⟨some yearlessHref, yearlessText⟩ = none := by decide
  have hTle : T ≤ 2016 := (hT 2016).2.mp hdis
  have hmem : rollingUrl ∈ urls_to_try 2016 := (hT 2016).1.mpr hTle
  have hno : ¬ rollingUrl ∈ urls_to_try 2016 := by decide
  exact hno hmem

/-! ### Orchestrator lemmas -/

theorem fsLookup_fsWrite_self (fs : Fs) (p c : List Char) :
    fsLookup (fsWrite fs p c) p = some c := by
  induction fs with
  | nil => simp [fsWrite, fsLookup]
  | cons qc rest ih =>
    obtain ⟨q, c0⟩ := qc
    by_cases h : q = p
    · simp [fsWrite, fsLookup, h]
    · simp [fsWrite, fsLookup, h, ih]

theorem fsLookup_fsWrite_other (fs : Fs) (p c q : List Char) (h : p ≠ q) :
    fsLookup (fsWrite fs p c) q = fsLookup fs q := by
  induction fs with
  | nil => simp [fsWrite, fsLookup, h]
  | cons kc rest ih =>
    obtain ⟨k, c0⟩ := kc
    by_cases hk : k = p
    · subst hk
      simp [fsWrite, fsLookup, h]
    · simp [fsWrite, fsLookup, hk, ih]

theorem orchStep_preserves (fetch : List Char → Option Page) (st : OrchState) (idx : Nat)
    (row : ManRow) (p c : List Char) (h : fsLookup st.fs p = some c) :
    fsLookup (orchStep fetch st idx row).fs p = some c := by
  cases hex : (fsLookup st.fs (derivedPath row.year idx row.url)).isSome
  · have hne : derivedPath row.year idx row.url ≠ p := by
      intro he
      rw [he, h] at hex
      simp at hex
    simp only [orchStep, hex, Bool.false_eq_true, if_false]
    rw [fsLookup_fsWrite_other _ _ _ _ hne]
    exact h
  · simp only [orchStep, hex, if_true]
    exact h

theorem orchRunFrom_preserves (fetch : List Char → Option Page) (rows : List ManRow) :
    ∀ (idx : Nat) (st : OrchState) (p c : List Char), fsLookup st.fs p = some c →
      fsLookup (orchRunFrom fetch idx rows st).fs p = some c := by
  induction rows with
  | nil => intro idx st p c h; exact h
  | cons r rest ih =>
    intro idx st p c h
    exact ih (idx + 1) _ p c (orchStep_preserves fetch st idx r p c h)

theorem orchStep_writes_self (fetch : List Char → Option Page) (st : OrchState) (idx : Nat)
    (row : ManRow) :
    ∃ c, fsLookup (orchStep fetch st idx row).fs (derivedPath row.year idx row.url) = some c := by
  cases hex : (fsLookup st.fs (derivedPath row.year idx row.url)).isSome
  · simp only [orchStep, hex, Bool.false_eq_true, if_false]
    exact ⟨_, fsLookup_fsWrite_self _ _ _⟩
  · simp only [orchStep, hex, if_true]
    exact Option.isSome_iff_exists.mp hex

theorem orchRunFrom_covers (fetch : List Char → Option Page) (rows : List ManRow) :
    ∀ (idx : Nat) (st : OrchState) (j : Nat) (hj : j < rows.length),
      ∃ c, fsLookup (orchRunFrom fetch idx rows st).fs
        (derivedPath (rows.get ⟨j, hj⟩).year (idx + j) (rows.get ⟨j, hj⟩).url) = some c := by
  induction rows with
  | nil => intro idx st j hj; exact absurd hj (by simp)
  | cons r rest ih =>
    intro idx st j hj
    cases j with
    | zero =>
      obtain ⟨c, hc⟩ := orchStep_writes_self fetch st idx r
      refine ⟨c, ?_⟩
      simpa [orchRunFrom] using
        orchRunFrom_preserves fetch rest (idx + 1) (orchStep fetch st idx r) _ c hc
    | succ j' =>
      have hj' : j' < rest.length := Nat.lt_of_succ_lt_succ hj
      obtain ⟨c, hc⟩ := ih (idx + 1) (orchStep fetch st idx r) j' hj'
      refine ⟨c, ?_⟩
      have harith : idx + (j' + 1) = idx + 1 + j' := by omega
      simpa [orchRunFrom, harith] using hc

theorem orchRunFrom_skips (fetch : List Char → Option Page) (rows : List ManRow) :
    ∀ (idx : Nat) (st : OrchState),
      (∀ (j : Nat) (hj : j < rows.length),
        ∃ c, fsLookup st.fs
          (derivedPath (rows.get ⟨j, hj⟩).year (idx + j) (rows.get ⟨j, hj⟩).url) = some c) →
      orchRunFrom fetch idx rows st = ⟨st.fs, st.fetches, st.success + rows.length⟩ := by
  induction rows with
  | nil =>
    intro idx st h
    simp only [orchRunFrom, List.length_nil, Nat.add_zero]
  | cons r rest ih =>
    intro idx st h
    have h0 := h 0 (by simp)
    simp only [List.get, Nat.add_zero] at h0
    obtain ⟨c, hc⟩ := h0
    have hstep : orchStep fetch st idx r = ⟨st.fs, st.fetches, st.success + 1⟩ := by
      unfold orchStep
      rw [if_pos (by simp [hc])]
    rw [orchRunFrom, hstep]
    have hrest := ih (idx + 1) ⟨st.fs, st.fetches, st.success + 1⟩
      (fun j hj => by
        have hsucc := h (j + 1) (by simpa using Nat.succ_lt_succ hj)
        have harith : idx + (j + 1) = idx + 1 + j := by omega
        simpa [List.get, harith] using hsucc)
    rw [hrest]
    simp only [List.length_cons]
    congr 1
    omega

/-- C2: running the orchestrator a second time over the same manifest with
the filesystem left as the first run produced it changes no artifact
contents, performs zero network fetches, and counts every record as
satisfied via the skip-if-exists check — for any behaviour of the network
during the second run. -/
theorem c2_idempotent_rerun (fetch fetch2 : List Char → Option Page) (rows : List ManRow)
    (fs0 : Fs) :
    (orchRun fetch2 rows (orchRun fetch rows fs0).fs).fs = (orchRun fetch rows fs0).fs ∧
    (orchRun fetch2 rows (orchRun fetch rows fs0).fs).fetches = 0 ∧
    (orchRun fetch2 rows (orchRun fetch rows fs0).fs).success = rows.length := by
  have hcov := orchRunFrom_covers fetch rows 0 ⟨fs0, 0, 0⟩
  have hrun := orchRunFrom_skips fetch2 rows 0 ⟨(orchRun fetch rows fs0).fs, 0, 0⟩
    (fun j hj => hcov j hj)
  unfold orchRun at hrun ⊢
  rw [hrun]
  exact ⟨rfl, rfl, Nat.zero_add _⟩

theorem orchRunFrom_append (fetch : List Char → Option Page) (as bs : List ManRow) :
    ∀ (idx : Nat) (st : OrchState),
      orchRunFrom fetch idx (as ++ bs) st =
        orchRunFrom fetch (idx + as.length) bs (orchRunFrom fetch idx as st) := by
  induction as with
  | nil => intro idx st; simp [orchRunFrom]
  | cons a rest ih =>
    intro idx st
    have harith : idx + (rest.length + 1) = idx + 1 + rest.length := by omega
    simp only [List.cons_append, orchRunFrom, List.length_cons, harith]
    exact ih (idx + 1) (orchStep fetch st idx a)

theorem orchStep_untouched (fetch : List Char → Option Page) (st : OrchState) (idx : Nat)
    (row : ManRow) (p : List Char) (hne : derivedPath row.year idx row.url ≠ p) :
    fsLookup (orchStep fetch st idx row).fs p = fsLookup st.fs p := by
  cases hex : (fsLookup st.fs (derivedPath row.year idx row.url)).isSome
  · simp only [orchStep, hex, Bool.false_eq_true, if_false]
    exact fsLookup_fsWrite_other _ _ _ _ hne
  · simp only [orchStep, hex, if_true]

theorem orchRunFrom_untouched (fetch : List Char → Option Page) (rows : List ManRow) :
    ∀ (idx : Nat) (st : OrchState) (p : List Char),
      (∀ (j : Nat) (hj : j < rows.length),
        derivedPath (rows.get ⟨j, hj⟩).year (idx + j) (rows.get ⟨j, hj⟩).url ≠ p) →
      fsLookup (orchRunFrom fetch idx rows st).fs p = fsLookup st.fs p := by
  induction rows with
  | nil => intro idx st p _; rfl
  | cons r rest ih =>
    intro idx st p hne
    have h0 := hne 0 (by simp)
    simp only [List.get, Nat.add_zero] at h0
    have hrest := ih (idx + 1) (orchStep fetch st idx r) p
      (fun j hj => by
        have hj1 := hne (j + 1) (by simpa using Nat.succ_lt_succ hj)
        have harith : idx + (j + 1) = idx + 1 + j := by omega
        simpa [List.get, harith] using hj1)
    rw [orchRunFrom, hrest, orchStep_untouched fetch st idx r p h0]

/-- C10: a record whose fetch fails still gets an artifact written, with
empty contents, at its derived path; every subsequent run then skips the
record (the filesystem is unchanged and zero fetches happen), so the
failed fetch is never retried. -/
theorem c10_failed_fetch_permanent (fetch fetch2 : List Char → Option Page)
    (pre suf : List ManRow) (row : ManRow) (fs0 : Fs)
    (hfail : fetch row.url = none)
    (hfresh : fsLookup fs0 (derivedPath row.year pre.length row.url) = none)
    (hpre : ∀ (j : Nat) (hj : j < pre.length),
      derivedPath (pre.get ⟨j, hj⟩).year j (pre.get ⟨j, hj⟩).url ≠
        derivedPath row.year pre.length row.url) :
    fsLookup (orchRun fetch (pre ++ row :: suf) fs0).fs
        (derivedPath row.year pre.length row.url) = some [] ∧
    (orchRun fetch2 (pre ++ row :: suf) (orchRun fetch (pre ++ row :: suf) fs0).fs).fs =
      (orchRun fetch (pre ++ row :: suf) fs0).fs ∧
    (orchRun fetch2 (pre ++ row :: suf) (orchRun fetch (pre ++ row :: suf) fs0).fs).fetches
      = 0 := by
  have hfirst : fsLookup (orchRun fetch (pre ++ row :: suf) fs0).fs
      (derivedPath row.year pre.length row.url) = some [] := by
    unfold orchRun
    rw [orchRunFrom_append fetch pre (row :: suf) 0 ⟨fs0, 0, 0⟩]
    have hp0 : fsLookup (orchRunFrom fetch 0 pre ⟨fs0, 0, 0⟩).fs
        (derivedPath row.year pre.length row.url) = none := by
      rw [orchRunFrom_untouched fetch pre 0 ⟨fs0, 0, 0⟩ _
        (fun j hj => by simpa using hpre j hj)]
      exact hfresh
    set stp := orchRunFrom fetch 0 pre ⟨fs0, 0, 0⟩ with hstp
    rw [Nat.zero_add]
    have hstep : fsLookup (orchStep fetch stp pre.length row).fs
        (derivedPath row.year pre.length row.url) = some [] := by
      simp only [orchStep, hp0, Option.isSome_none, Bool.false_eq_true, if_false]
      rw [hfail]
      exact fsLookup_fsWrite_self _ _ []
    exact orchRunFrom_preserves fetch suf (pre.length + 1)
      (orchStep fetch stp pre.length row) _ [] (by simpa [orchRunFrom] using hstep)
  refine ⟨hfirst, ?_, ?_⟩
  · have hcov := orchRunFrom_covers fetch (pre ++ row :: suf) 0 ⟨fs0, 0, 0⟩
    have hrun := orchRunFrom_skips fetch2 (pre ++ row :: suf) 0
      ⟨(orchRun fetch (pre ++ row :: suf) fs0).fs, 0, 0⟩ (fun j hj => hcov j hj)
    unfold orchRun at hrun ⊢
    rw [hrun]
  · have hcov := orchRunFrom_covers fetch (pre ++ row :: suf) 0 ⟨fs0, 0, 0⟩
    have hrun := orchRunFrom_skips fetch2 (pre ++ row :: suf) 0
      ⟨(orchRun fetch (pre ++ row :: suf) fs0).fs, 0, 0⟩ (fun j hj => hcov j hj)
    unfold orchRun at hrun ⊢
    rw [hrun]

/-- Witness for C10 on a one-row manifest with an always-failing network:
the artifact exists with empty contents after the first run, and the
second run leaves the filesystem unchanged with zero fetches. -/
theorem c10_failed_fetch_permanent_witness :
    fsLookup (orchRun (fun _ => none) [⟨2008, "monetary20081028a.htm".data⟩] []).fs
        (derivedPath 2008 0 "monetary20081028a.htm".data) = some [] ∧
    (orchRun (fun _ => none) [⟨2008, "monetary20081028a.htm".data⟩]
        (orchRun (fun _ => none) [⟨2008, "monetary20081028a.htm".data⟩] []).fs).fs =
      (orchRun (fun _ => none) [⟨2008, "monetary20081028a.htm".data⟩] []).fs ∧
    (orchRun (fun _ => none) [⟨2008, "monetary20081028a.htm".data⟩]
        (orchRun (fun _ => none) [⟨2008, "monetary20081028a.htm".data⟩] []).fs).fetches
      = 0 := by
  have h := c10_failed_fetch_permanent (fun _ => none) (fun _ => none) [] []
    ⟨2008, "monetary20081028a.htm".data⟩ [] rfl rfl
    (fun j hj => absurd hj (by simp))
  simpa using h

/-! ### Non-atomic artifact publication -/

/-- Locator of the C9 scenario row. -/
def c9Url : List Char := "monetary20081028a.htm".data

/-- Body text the orchestrator intends to persist in the C9 scenario. -/
def c9Text : List Char := "FOMC statement body text".data

/-- The artifact path the orchestrator derives for the C9 scenario row. -/
def c9Path : List Char := derivedPath 2008 0 c9Url

/-- Filesystem state when the run is interrupted after the open event of
the artifact write but before the contents are written. -/
def c9Interrupted : Fs := applyOps [] ((writeOps c9Path c9Text).take 1)

/-- C9: the orchestrator publishes artifacts by opening the final path
directly and writing in place (`writeOps` is exactly create-then-fill at
the final path, with no temporary file or rename); an interruption
between the two events leaves a truncated (empty) file at the final
artifact path even though the intended text is nonempty, and a resumed
run's skip-if-exists check then treats that truncated artifact as
complete: it skips the row, fetches nothing, and repairs nothing. -/
theorem c9_direct_write_not_atomic :
    applyOps [] (writeOps c9Path c9Text) = fsWrite [] c9Path c9Text ∧
    fsLookup c9Interrupted c9Path = some [] ∧
    c9Text ≠ [] ∧
    orchStep (fun _ => none) ⟨c9Interrupted, 0, 0⟩ 0 ⟨2008, c9Url⟩ =
      ⟨c9Interrupted, 0, 1⟩ := by
  refine ⟨by decide, by decide, by decide, ?_⟩
  decide
